import Mathlib

/-!
Shallow embedding of the project-library core of the repository
(src/src/project_library.rs) in Lean 4, together with theorems settling
the specification claims about it.

Modelling conventions:
* Rust Vec becomes List, usize becomes Nat, PathBuf becomes String.
* Rust integer arithmetic is checked (debug profile): the expression
  projects.len() - 1 underflows when the vector is empty, which panics;
  a panicking operation is modelled as returning none.
* The TOML layer is modelled at the schema level: the serialized form of
  the library is the list of serialized projects, each carrying the two
  string fields and the snake_case status token produced by serde for
  the attributes on ProjectStatus and ProjectLibrary (selected index and
  file path carry skip_serializing / skip_deserializing, so they are not
  part of the document and deserialize to their Default values).
-/

inductive CycleDirection where
  | Up : CycleDirection
  | Down : CycleDirection
  deriving DecidableEq, Repr

inductive ProjectStatus where
  | Finished : ProjectStatus
  | InProgress : ProjectStatus
  | Idea : ProjectStatus
  | Paused : ProjectStatus
  deriving DecidableEq, Repr

def ProjectStatus.cycle (s : ProjectStatus) (direction : CycleDirection) : ProjectStatus :=
  match direction with
  | CycleDirection.Up =>
    match s with
    | Finished => Paused
    | InProgress => Finished
    | Idea => InProgress
    | Paused => Idea
  | CycleDirection.Down =>
    match s with
    | Finished => InProgress
    | InProgress => Idea
    | Idea => Paused
    | Paused => Finished

structure Project where
  name : String
  description : String
  status : ProjectStatus
  deriving DecidableEq, Repr

def Project.new (name : String) (description : String) : Project :=
  { name := name, description := description, status := ProjectStatus.Idea }

def Project.cycle_status (p : Project) (direction : CycleDirection) : Project :=
  { p with status := p.status.cycle direction }

structure ProjectLibrary where
  projects : List Project
  selected_project_index : Nat
  library_file_path : String
  deriving DecidableEq, Repr

/-- The Default derive: empty vector, index 0, empty path. -/
def ProjectLibrary.default : ProjectLibrary :=
  { projects := [], selected_project_index := 0, library_file_path := "" }

def ProjectLibrary.add_project (lib : ProjectLibrary) (project : Project) : ProjectLibrary :=
  { lib with projects := lib.projects ++ [project] }

/-- Rust source: on Down the guard compares against projects.len() - 1, and on
Up with index 0 the new index is projects.len() - 1; with an empty vector that
subtraction underflows, which panics under checked arithmetic, modelled as
none. -/
def ProjectLibrary.cycle_selected_project (lib : ProjectLibrary)
    (direction : CycleDirection) : Option ProjectLibrary :=
  match direction with
  | CycleDirection.Down =>
    if lib.projects.length = 0 then
      none
    else if lib.selected_project_index ≥ lib.projects.length - 1 then
      some { lib with selected_project_index := 0 }
    else
      some { lib with selected_project_index := lib.selected_project_index + 1 }
  | CycleDirection.Up =>
    if lib.selected_project_index = 0 then
      if lib.projects.length = 0 then
        none
      else
        some { lib with selected_project_index := lib.projects.length - 1 }
    else
      some { lib with selected_project_index := lib.selected_project_index - 1 }

/-- Rust source: get_mut on the selected index; when it yields a project its
status is cycled in place, otherwise nothing happens. -/
def ProjectLibrary.cycle_selected_project_status (lib : ProjectLibrary)
    (direction : CycleDirection) : ProjectLibrary :=
  match lib.projects.get? lib.selected_project_index with
  | some p =>
    { lib with
        projects := lib.projects.set lib.selected_project_index (p.cycle_status direction) }
  | none => lib

/-- The snake_case token serde writes for each status variant. -/
def statusToken : ProjectStatus → String
  | ProjectStatus.Finished => "finished"
  | ProjectStatus.InProgress => "in_progress"
  | ProjectStatus.Idea => "idea"
  | ProjectStatus.Paused => "paused"

/-- Deserializing a status token: exactly the four snake_case names are
recognised, anything else is a schema error. -/
def parseStatusToken (s : String) : Option ProjectStatus :=
  if s = "finished" then some ProjectStatus.Finished
  else if s = "in_progress" then some ProjectStatus.InProgress
  else if s = "idea" then some ProjectStatus.Idea
  else if s = "paused" then some ProjectStatus.Paused
  else none

/-- One project as it appears in the persisted document. -/
structure SerProject where
  name : String
  description : String
  status : String
  deriving DecidableEq, Repr

/-- The persisted document: just the ordered list of projects (the selected
index and the file path carry serde skip attributes). -/
abbrev Document := List SerProject

def serializeProject (p : Project) : SerProject :=
  { name := p.name, description := p.description, status := statusToken p.status }

def parseProject (sp : SerProject) : Option Project :=
  match parseStatusToken sp.status with
  | some st => some { name := sp.name, description := sp.description, status := st }
  | none => none

def parseProjects : Document → Option (List Project)
  | [] => some []
  | sp :: rest =>
    match parseProject sp, parseProjects rest with
    | some p, some ps => some (p :: ps)
    | _, _ => none

/-- ProjectLibrary::save at the schema level: serialize the projects list;
the selected index and file path are skipped. -/
def ProjectLibrary.save (lib : ProjectLibrary) : Document :=
  lib.projects.map serializeProject

/-- ProjectLibrary::from_file at the schema level: deserialize the document
(skipped fields take their Default values, so the selected index is 0), then
bind the path. A schema error in any entry fails the whole load. -/
def ProjectLibrary.from_file (doc : Document) (file_path : String) :
    Option ProjectLibrary :=
  match parseProjects doc with
  | some ps =>
    some { projects := ps, selected_project_index := 0, library_file_path := file_path }
  | none => none

/-- The claimed selection invariant: a valid index whenever the collection is
non-empty. -/
def ProjectLibrary.selectionInvariant (lib : ProjectLibrary) : Prop :=
  lib.projects ≠ [] → lib.selected_project_index < lib.projects.length

/-- The inductive strengthening actually maintained by the code: on the empty
library the index is still 0 (its Default value). -/
def ProjectLibrary.strongInvariant (lib : ProjectLibrary) : Prop :=
  lib.selected_project_index < lib.projects.length ∨
    (lib.projects = [] ∧ lib.selected_project_index = 0)

/-- The commands the application run-loop can issue against the library. -/
inductive LibraryOp where
  | addProject : Project → LibraryOp
  | cycleSelected : CycleDirection → LibraryOp
  | cycleStatus : CycleDirection → LibraryOp

def applyOp (lib : ProjectLibrary) : LibraryOp → Option ProjectLibrary
  | LibraryOp.addProject p => some (lib.add_project p)
  | LibraryOp.cycleSelected d => lib.cycle_selected_project d
  | LibraryOp.cycleStatus d => some (lib.cycle_selected_project_status d)

/-- Run a sequence of commands; a panic anywhere aborts the run. -/
def runOps : ProjectLibrary → List LibraryOp → Option ProjectLibrary
  | lib, [] => some lib
  | lib, op :: ops =>
    match applyOp lib op with
    | some lib2 => runOps lib2 ops
    | none => none

/-- Iterate cycle_selected_project Down a given number of times. -/
def cycleDownN (lib : ProjectLibrary) : Nat → Option ProjectLibrary
  | 0 => some lib
  | Nat.succ k =>
    match lib.cycle_selected_project CycleDirection.Down with
    | some lib2 => cycleDownN lib2 k
    | none => none

/-- A concrete two-project library used to instantiate universally quantified
theorems. -/
def twoProjectLib : ProjectLibrary :=
  { projects := [Project.new "Website" "Personal site", Project.new "CLI Tool" ""],
    selected_project_index := 0,
    library_file_path := "config.toml" }

/-- C4: ProjectStatus.cycle is total and pure by construction; it forms two
inverse 4-cycles with forward (Up) order Idea → InProgress → Finished →
Paused → Idea and backward (Down) order its exact inverse, the two
directions cancel in either order, and four Up applications are the
identity. -/
theorem C4_status_cycle :
    (ProjectStatus.cycle ProjectStatus.Idea CycleDirection.Up = ProjectStatus.InProgress ∧
      ProjectStatus.cycle ProjectStatus.InProgress CycleDirection.Up = ProjectStatus.Finished ∧
      ProjectStatus.cycle ProjectStatus.Finished CycleDirection.Up = ProjectStatus.Paused ∧
      ProjectStatus.cycle ProjectStatus.Paused CycleDirection.Up = ProjectStatus.Idea) ∧
    (∀ s t : ProjectStatus,
      ProjectStatus.cycle s CycleDirection.Up = t ↔
        ProjectStatus.cycle t CycleDirection.Down = s) ∧
    (∀ s : ProjectStatus,
      ProjectStatus.cycle (ProjectStatus.cycle s CycleDirection.Up) CycleDirection.Down = s) ∧
    (∀ s : ProjectStatus,
      ProjectStatus.cycle (ProjectStatus.cycle s CycleDirection.Down) CycleDirection.Up = s) ∧
    (∀ s : ProjectStatus,
      ProjectStatus.cycle (ProjectStatus.cycle (ProjectStatus.cycle
        (ProjectStatus.cycle s CycleDirection.Up) CycleDirection.Up) CycleDirection.Up)
        CycleDirection.Up = s) := by
  refine ⟨⟨rfl, rfl, rfl, rfl⟩, ?_, ?_, ?_, ?_⟩
  · intro s t
    cases s <;> cases t <;> simp [ProjectStatus.cycle]
  · intro s
    cases s <;> rfl
  · intro s
    cases s <;> rfl
  · intro s
    cases s <;> rfl

/-- C1: on the empty library (the default state) cycle_selected_project is
not a no-op: in both directions the code reaches the subtraction
projects.len() - 1 with length 0, which underflows and panics (modelled as
none). This contradicts the spec, which requires a defined no-op. -/
theorem C1_empty_cycle_underflows :
    ProjectLibrary.cycle_selected_project ProjectLibrary.default CycleDirection.Down = none ∧
    ProjectLibrary.cycle_selected_project ProjectLibrary.default CycleDirection.Up = none := by
  exact ⟨rfl, rfl⟩

/-! ### List helper lemmas shared by several claims -/

theorem list_get?_append_left {α : Type} (l l2 : List α) (i : Nat)
    (h : i < l.length) : (l ++ l2).get? i = l.get? i := by
  induction l generalizing i with
  | nil => simp at h
  | cons x xs ih =>
    cases i with
    | zero => rfl
    | succ j => exact ih j (Nat.lt_of_succ_lt_succ h)

theorem list_get?_set_self {α : Type} (l : List α) (i : Nat) (a : α)
    (h : i < l.length) : (l.set i a).get? i = some a := by
  induction l generalizing i with
  | nil => simp at h
  | cons x xs ih =>
    cases i with
    | zero => rfl
    | succ j =>
      simp only [List.set, List.get?]
      exact ih j (Nat.lt_of_succ_lt_succ h)

theorem list_get?_set_ne {α : Type} (l : List α) (i j : Nat) (a : α)
    (h : j ≠ i) : (l.set i a).get? j = l.get? j := by
  induction l generalizing i j with
  | nil => rfl
  | cons x xs ih =>
    cases i with
    | zero =>
      cases j with
      | zero => exact absurd rfl h
      | succ k => rfl
    | succ i' =>
      cases j with
      | zero => rfl
      | succ k =>
        simp only [List.set, List.get?]
        exact ih i' k fun hk => h (congrArg Nat.succ hk)

theorem list_get?_eq_none_of_ge {α : Type} (l : List α) (i : Nat)
    (h : l.length ≤ i) : l.get? i = none := by
  induction l generalizing i with
  | nil => rfl
  | cons x xs ih =>
    cases i with
    | zero => simp at h
    | succ j => exact ih j (Nat.le_of_succ_le_succ h)

/-! ### C7: add_project -/

/-- C7: add_project appends the project at the end of the sequence (every
previously present project keeps its position and contents), leaves the
selected index and the bound path unchanged, and on the initial default
(empty) library the selection is valid at index 0 afterwards. -/
theorem C7_add_project (lib : ProjectLibrary) (p : Project) :
    (lib.add_project p).projects = lib.projects ++ [p] ∧
    (∀ j, j < lib.projects.length →
      (lib.add_project p).projects.get? j = lib.projects.get? j) ∧
    (lib.add_project p).selected_project_index = lib.selected_project_index ∧
    (lib.add_project p).library_file_path = lib.library_file_path ∧
    (lib = ProjectLibrary.default →
      (lib.add_project p).selected_project_index = 0 ∧
      (lib.add_project p).selected_project_index < (lib.add_project p).projects.length) := by
  refine ⟨rfl, ?_, rfl, rfl, ?_⟩
  · intro j hj
    exact list_get?_append_left lib.projects [p] j hj
  · intro h
    subst h
    exact ⟨rfl, Nat.zero_lt_one⟩

theorem C7_add_project_witness :
    (ProjectLibrary.default.add_project (Project.new "Website" "Personal site")).projects
        = [Project.new "Website" "Personal site"] ∧
    (ProjectLibrary.default.add_project (Project.new "Website" "Personal site")).selected_project_index = 0 ∧
    (ProjectLibrary.default.add_project (Project.new "Website" "Personal site")).selected_project_index
        < (ProjectLibrary.default.add_project (Project.new "Website" "Personal site")).projects.length := by
  obtain ⟨h1, h2, h3, h4, h5⟩ :=
    C7_add_project ProjectLibrary.default (Project.new "Website" "Personal site")
  exact ⟨h1, (h5 rfl).1, (h5 rfl).2⟩

/-! ### C8: cycle_selected_project_status -/

/-- C8: when a project sits at the selected index, cycle_selected_project_status
replaces its status by ProjectStatus.cycle of the old status (total function,
so no panic); when the index is out of range — in particular on the empty
library — the state is left completely unchanged. -/
theorem C8_cycle_status (lib : ProjectLibrary) (d : CycleDirection) :
    (∀ p, lib.projects.get? lib.selected_project_index = some p →
      ((lib.cycle_selected_project_status d).projects.get? lib.selected_project_index
          = some { name := p.name, description := p.description,
                   status := p.status.cycle d } ∧
        (lib.cycle_selected_project_status d).projects.length = lib.projects.length ∧
        (lib.cycle_selected_project_status d).selected_project_index
          = lib.selected_project_index ∧
        (lib.cycle_selected_project_status d).library_file_path
          = lib.library_file_path)) ∧
    (lib.projects.length ≤ lib.selected_project_index →
      lib.cycle_selected_project_status d = lib) := by
  constructor
  · intro p hp
    have hlt : lib.selected_project_index < lib.projects.length := by
      by_contra hge
      rw [list_get?_eq_none_of_ge lib.projects lib.selected_project_index
        (Nat.le_of_not_lt hge)] at hp
      exact Option.noConfusion hp
    unfold ProjectLibrary.cycle_selected_project_status
    rw [hp]
    refine ⟨?_, by simp, rfl, rfl⟩
    simpa [Project.cycle_status] using
      list_get?_set_self lib.projects lib.selected_project_index
        (p.cycle_status d) hlt
  · intro hge
    unfold ProjectLibrary.cycle_selected_project_status
    rw [list_get?_eq_none_of_ge lib.projects lib.selected_project_index hge]

theorem C8_cycle_status_witness :
    ProjectLibrary.default.cycle_selected_project_status CycleDirection.Up
      = ProjectLibrary.default :=
  (C8_cycle_status ProjectLibrary.default CycleDirection.Up).2 (Nat.le_refl 0)

/-! ### C9: no non-emptiness validation of names -/

/-- C9 counterexample: the claim that every project built by Project::new has
a non-empty name fails at the concrete input name = "": the constructor
stores the empty string verbatim. -/
theorem C9_counterexample :
    ¬ ((Project.new "" "Personal site").name ≠ "") := fun h => h rfl

/-- C9 amended: Project::new stores the given name and description verbatim
with status Idea and performs no validation, and loading likewise accepts a
project whose name is the empty string; a name is merely present, possibly
empty. -/
theorem C9_no_name_validation (name description : String) :
    (Project.new name description).name = name ∧
    (Project.new name description).description = description ∧
    (Project.new name description).status = ProjectStatus.Idea ∧
    ProjectLibrary.from_file
        [{ name := "", description := description, status := "idea" }] "" =
      some { projects := [{ name := "", description := description,
                            status := ProjectStatus.Idea }],
             selected_project_index := 0, library_file_path := "" } := by
  refine ⟨rfl, rfl, rfl, rfl⟩

/-! ### C6: unknown status tokens are schema errors -/

theorem parseProjects_none_of_mem (pre post : Document) (sp : SerProject)
    (h : parseProject sp = none) :
    parseProjects (pre ++ sp :: post) = none := by
  induction pre with
  | nil =>
    simp only [List.nil_append, parseProjects, h]
  | cons a rest ih =>
    have ih' : parseProjects (List.append rest (sp :: post)) = none := ih
    simp only [List.cons_append, parseProjects, ih, ih']
    cases parseProject a <;> rfl

/-- C6: loading a document one of whose entries carries a status token outside
the four recognized values fails (the whole load returns the error case); the
status is never silently defaulted. -/
theorem C6_unknown_status_token (pre post : Document) (sp : SerProject)
    (file_path : String)
    (h1 : sp.status ≠ "finished") (h2 : sp.status ≠ "in_progress")
    (h3 : sp.status ≠ "idea") (h4 : sp.status ≠ "paused") :
    ProjectLibrary.from_file (pre ++ sp :: post) file_path = none := by
  have hp : parseProject sp = none := by
    unfold parseProject parseStatusToken
    rw [if_neg h1, if_neg h2, if_neg h3, if_neg h4]
  unfold ProjectLibrary.from_file
  rw [parseProjects_none_of_mem pre post sp hp]

theorem C6_unknown_status_token_witness :
    ProjectLibrary.from_file
      [{ name := "Website", description := "", status := "done" }] "config.toml"
      = none :=
  C6_unknown_status_token []
    [] { name := "Website", description := "", status := "done" } "config.toml"
    (by decide) (by decide) (by decide) (by decide)

/-! ### C3: persistence round-trip -/

theorem parseProject_serializeProject (p : Project) :
    parseProject (serializeProject p) = some p := by
  cases p with
  | mk n d s => cases s <;> rfl

theorem parseProjects_map_serialize (ps : List Project) :
    parseProjects (ps.map serializeProject) = some ps := by
  induction ps with
  | nil => rfl
  | cons p rest ih =>
    simp only [List.map, parseProjects, parseProject_serializeProject, ih]

/-- C3: saving a library and loading the written document reproduces the
projects sequence exactly (same names, descriptions, statuses, order), resets
the selected index to 0 regardless of the prior selection, and binds the given
path; moreover the saved document depends only on the projects sequence, so
the selection index and the file path are never part of it. -/
theorem C3_round_trip (lib : ProjectLibrary) (file_path : String) :
    ProjectLibrary.from_file lib.save file_path =
      some { projects := lib.projects, selected_project_index := 0,
             library_file_path := file_path } ∧
    (∀ i i' : Nat, ∀ q q' : String,
      ProjectLibrary.save { projects := lib.projects, selected_project_index := i,
                            library_file_path := q }
        = ProjectLibrary.save { projects := lib.projects, selected_project_index := i',
                                library_file_path := q' }) := by
  constructor
  · unfold ProjectLibrary.from_file ProjectLibrary.save
    rw [parseProjects_map_serialize]
  · intro i i' q q'
    rfl

/-! ### C5: selection wraparound -/

theorem cycle_down_eq (lib : ProjectLibrary)
    (h : lib.selected_project_index < lib.projects.length) :
    lib.cycle_selected_project CycleDirection.Down =
      some { lib with selected_project_index :=
               (lib.selected_project_index + 1) % lib.projects.length } := by
  unfold ProjectLibrary.cycle_selected_project
  have hlen : ¬ lib.projects.length = 0 := by omega
  rw [if_neg hlen]
  by_cases hc : lib.selected_project_index ≥ lib.projects.length - 1
  · rw [if_pos hc]
    have h1 : lib.selected_project_index + 1 = lib.projects.length := by omega
    rw [h1, Nat.mod_self]
  · rw [if_neg hc]
    have h1 : lib.selected_project_index + 1 < lib.projects.length := by omega
    rw [Nat.mod_eq_of_lt h1]

theorem cycle_up_eq (lib : ProjectLibrary)
    (h : lib.selected_project_index < lib.projects.length) :
    lib.cycle_selected_project CycleDirection.Up =
      some { lib with selected_project_index :=
               if lib.selected_project_index = 0 then lib.projects.length - 1
               else lib.selected_project_index - 1 } := by
  by_cases hz : lib.selected_project_index = 0
  · have hlen : ¬ lib.projects.length = 0 := by omega
    simp only [ProjectLibrary.cycle_selected_project, if_pos hz, if_neg hlen]
  · simp only [ProjectLibrary.cycle_selected_project, if_neg hz]

theorem cycleDownN_eq (k : Nat) (lib : ProjectLibrary)
    (h : lib.selected_project_index < lib.projects.length) :
    cycleDownN lib k =
      some { lib with selected_project_index :=
               (lib.selected_project_index + k) % lib.projects.length } := by
  induction k generalizing lib with
  | zero =>
    rw [Nat.add_zero, Nat.mod_eq_of_lt h]
    rfl
  | succ k ih =>
    have hpos : 0 < lib.projects.length := by omega
    have hvalid : (lib.selected_project_index + 1) % lib.projects.length
        < lib.projects.length := Nat.mod_lt _ hpos
    have hstep : cycleDownN lib (k + 1) =
        cycleDownN { lib with selected_project_index :=
          (lib.selected_project_index + 1) % lib.projects.length } k := by
      show (match lib.cycle_selected_project CycleDirection.Down with
            | some lib2 => cycleDownN lib2 k
            | none => none) = _
      rw [cycle_down_eq lib h]
    rw [hstep, ih _ hvalid, Nat.mod_add_mod]
    have harith : lib.selected_project_index + 1 + k
        = lib.selected_project_index + (k + 1) := by omega
    rw [harith]

/-- C5: on a non-empty library with a valid selection, cycle_selected_project
moves the selection by one with wraparound (Down at the last index reaches 0,
Up at 0 reaches the last index, otherwise plus or minus one); length-many Down
steps restore the original selection, and Up followed by Down (or Down
followed by Up) restores it. -/
theorem C5_cycle_selection (lib : ProjectLibrary)
    (hne : lib.projects ≠ [])
    (hidx : lib.selected_project_index < lib.projects.length) :
    (lib.selected_project_index = lib.projects.length - 1 →
      lib.cycle_selected_project CycleDirection.Down =
        some { lib with selected_project_index := 0 }) ∧
    (lib.selected_project_index + 1 < lib.projects.length →
      lib.cycle_selected_project CycleDirection.Down =
        some { lib with selected_project_index := lib.selected_project_index + 1 }) ∧
    (lib.selected_project_index = 0 →
      lib.cycle_selected_project CycleDirection.Up =
        some { lib with selected_project_index := lib.projects.length - 1 }) ∧
    (0 < lib.selected_project_index →
      lib.cycle_selected_project CycleDirection.Up =
        some { lib with selected_project_index := lib.selected_project_index - 1 }) ∧
    cycleDownN lib lib.projects.length = some lib ∧
    ((lib.cycle_selected_project CycleDirection.Up).bind
       (fun l => l.cycle_selected_project CycleDirection.Down) = some lib) ∧
    ((lib.cycle_selected_project CycleDirection.Down).bind
       (fun l => l.cycle_selected_project CycleDirection.Up) = some lib) := by
  have hpos : 0 < lib.projects.length := List.length_pos.mpr hne
  refine ⟨?_, ?_, ?_, ?_, ?_, ?_, ?_⟩
  · intro hlast
    rw [cycle_down_eq lib hidx]
    have h1 : lib.selected_project_index + 1 = lib.projects.length := by omega
    rw [h1, Nat.mod_self]
  · intro hmid
    rw [cycle_down_eq lib hidx, Nat.mod_eq_of_lt hmid]
  · intro hz
    rw [cycle_up_eq lib hidx, if_pos hz]
  · intro hp
    have hz : ¬ lib.selected_project_index = 0 := by omega
    rw [cycle_up_eq lib hidx, if_neg hz]
  · rw [cycleDownN_eq _ lib hidx, Nat.add_mod_right,
      Nat.mod_eq_of_lt hidx]
  · rw [cycle_up_eq lib hidx]
    by_cases hz : lib.selected_project_index = 0
    · rw [if_pos hz]
      have hvalid : lib.projects.length - 1 < lib.projects.length := by omega
      show ({ lib with selected_project_index := lib.projects.length - 1
            } : ProjectLibrary).cycle_selected_project CycleDirection.Down = some lib
      rw [cycle_down_eq { lib with selected_project_index := lib.projects.length - 1 } hvalid]
      have h1 : lib.projects.length - 1 + 1 = lib.projects.length := by omega
      rw [h1, Nat.mod_self, ← hz]
    · rw [if_neg hz]
      have hvalid : lib.selected_project_index - 1 < lib.projects.length := by omega
      show ({ lib with selected_project_index := lib.selected_project_index - 1
            } : ProjectLibrary).cycle_selected_project CycleDirection.Down = some lib
      rw [cycle_down_eq
        { lib with selected_project_index := lib.selected_project_index - 1 } hvalid]
      have h1 : lib.selected_project_index - 1 + 1 = lib.selected_project_index := by omega
      rw [h1, Nat.mod_eq_of_lt hidx]
  · rw [cycle_down_eq lib hidx]
    have hvalid : (lib.selected_project_index + 1) % lib.projects.length
        < lib.projects.length := Nat.mod_lt _ hpos
    show ({ lib with selected_project_index :=
        (lib.selected_project_index + 1) % lib.projects.length
      } : ProjectLibrary).cycle_selected_project CycleDirection.Up = some lib
    rw [cycle_up_eq { lib with selected_project_index :=
        (lib.selected_project_index + 1) % lib.projects.length } hvalid]
    by_cases hlast : lib.selected_project_index + 1 = lib.projects.length
    · have hm : (lib.selected_project_index + 1) % lib.projects.length = 0 := by
        rw [hlast, Nat.mod_self]
      rw [hm]
      have hrw : lib.projects.length - 1 = lib.selected_project_index := by omega
      rw [if_pos rfl, hrw]
    · have hlt : lib.selected_project_index + 1 < lib.projects.length := by omega
      have hm : (lib.selected_project_index + 1) % lib.projects.length
          = lib.selected_project_index + 1 := Nat.mod_eq_of_lt hlt
      rw [hm]
      have hz : ¬ lib.selected_project_index + 1 = 0 := by omega
      rw [if_neg hz, Nat.add_sub_cancel]

theorem C5_cycle_selection_witness :
    twoProjectLib.cycle_selected_project CycleDirection.Down
      = some { twoProjectLib with selected_project_index := 1 } ∧
    twoProjectLib.cycle_selected_project CycleDirection.Up
      = some { twoProjectLib with selected_project_index := 1 } ∧
    cycleDownN twoProjectLib 2 = some twoProjectLib ∧
    (twoProjectLib.cycle_selected_project CycleDirection.Up).bind
        (fun l => l.cycle_selected_project CycleDirection.Down)
      = some twoProjectLib := by
  obtain ⟨hlast, hmid, hup0, hpos, hN, hud, hdu⟩ :=
    C5_cycle_selection twoProjectLib (by decide) (by decide)
  exact ⟨hmid (by decide), hup0 rfl, hN, hud⟩

/-! ### C2: the selection invariant along every command sequence -/

theorem list_get?_lt {α : Type} (l : List α) (i : Nat) (h : i < l.length) :
    ∃ a, l.get? i = some a := by
  induction l generalizing i with
  | nil => simp at h
  | cons x xs ih =>
    cases i with
    | zero => exact ⟨x, rfl⟩
    | succ j => exact ih j (Nat.lt_of_succ_lt_succ h)

theorem cycle_status_cases (lib : ProjectLibrary) (d : CycleDirection) :
    lib.cycle_selected_project_status d = lib ∨
    ((lib.cycle_selected_project_status d).projects.length = lib.projects.length ∧
     (lib.cycle_selected_project_status d).selected_project_index
        = lib.selected_project_index ∧
     (lib.cycle_selected_project_status d).library_file_path
        = lib.library_file_path) := by
  unfold ProjectLibrary.cycle_selected_project_status
  cases hget : lib.projects.get? lib.selected_project_index with
  | none => exact Or.inl rfl
  | some p =>
    refine Or.inr ⟨?_, rfl, rfl⟩
    simp

theorem cycle_preserves_strong (lib lib2 : ProjectLibrary) (d : CycleDirection)
    (hinv : lib.strongInvariant)
    (h : lib.cycle_selected_project d = some lib2) :
    lib2.projects = lib.projects ∧
    lib2.selected_project_index < lib.projects.length := by
  cases d with
  | Down =>
    by_cases hlen : lib.projects.length = 0
    · have hnone : lib.cycle_selected_project CycleDirection.Down = none := by
        simp only [ProjectLibrary.cycle_selected_project, if_pos hlen]
      rw [hnone] at h
      exact Option.noConfusion h
    · by_cases hc : lib.selected_project_index ≥ lib.projects.length - 1
      · have hsome : lib.cycle_selected_project CycleDirection.Down =
            some { lib with selected_project_index := 0 } := by
          simp only [ProjectLibrary.cycle_selected_project, if_neg hlen, if_pos hc]
        rw [hsome] at h
        have heq := Option.some.inj h
        subst heq
        refine ⟨rfl, ?_⟩
        show (0 : Nat) < lib.projects.length
        omega
      · have hsome : lib.cycle_selected_project CycleDirection.Down =
            some { lib with selected_project_index := lib.selected_project_index + 1 } := by
          simp only [ProjectLibrary.cycle_selected_project, if_neg hlen, if_neg hc]
        rw [hsome] at h
        have heq := Option.some.inj h
        subst heq
        refine ⟨rfl, ?_⟩
        show lib.selected_project_index + 1 < lib.projects.length
        omega
  | Up =>
    by_cases hz : lib.selected_project_index = 0
    · by_cases hlen : lib.projects.length = 0
      · have hnone : lib.cycle_selected_project CycleDirection.Up = none := by
          simp only [ProjectLibrary.cycle_selected_project, if_pos hz, if_pos hlen]
        rw [hnone] at h
        exact Option.noConfusion h
      · have hsome : lib.cycle_selected_project CycleDirection.Up =
            some { lib with selected_project_index := lib.projects.length - 1 } := by
          simp only [ProjectLibrary.cycle_selected_project, if_pos hz, if_neg hlen]
        rw [hsome] at h
        have heq := Option.some.inj h
        subst heq
        refine ⟨rfl, ?_⟩
        show lib.projects.length - 1 < lib.projects.length
        omega
    · have hsome : lib.cycle_selected_project CycleDirection.Up =
          some { lib with selected_project_index := lib.selected_project_index - 1 } := by
        simp only [ProjectLibrary.cycle_selected_project, if_neg hz]
      rw [hsome] at h
      have heq := Option.some.inj h
      subst heq
      refine ⟨rfl, ?_⟩
      show lib.selected_project_index - 1 < lib.projects.length
      have hlt : lib.selected_project_index < lib.projects.length := by
        cases hinv with
        | inl h1 => exact h1
        | inr h2 => exact absurd h2.2 hz
      omega

theorem applyOp_preserves_strong (lib lib2 : ProjectLibrary) (op : LibraryOp)
    (hinv : lib.strongInvariant) (h : applyOp lib op = some lib2) :
    lib2.strongInvariant := by
  cases op with
  | addProject p =>
    have hlib2 : lib2 = lib.add_project p := by
      have := h
      unfold applyOp at this
      exact (Option.some.injEq _ _ ▸ this.symm ▸ rfl)
    subst hlib2
    have hlen : (lib.add_project p).projects.length = lib.projects.length + 1 := by
      unfold ProjectLibrary.add_project
      simp
    cases hinv with
    | inl h1 =>
      left
      unfold ProjectLibrary.add_project at *
      simp at *
      omega
    | inr h2 =>
      left
      unfold ProjectLibrary.add_project at *
      simp [h2.1, h2.2]
  | cycleSelected d =>
    have h2 : lib.cycle_selected_project d = some lib2 := h
    obtain ⟨hproj, hidx⟩ := cycle_preserves_strong lib lib2 d hinv h2
    left
    rw [hproj]
    exact hidx
  | cycleStatus d =>
    have hlib2 : lib2 = lib.cycle_selected_project_status d := by
      unfold applyOp at h
      exact (Option.some.injEq _ _ ▸ h.symm ▸ rfl)
    subst hlib2
    cases cycle_status_cases lib d with
    | inl heq => rw [heq]; exact hinv
    | inr hfacts =>
      cases hinv with
      | inl h1 =>
        left
        rw [hfacts.1, hfacts.2.1]
        exact h1
      | inr h2 =>
        right
        constructor
        · have : (lib.cycle_selected_project_status d).projects.length = 0 := by
            rw [hfacts.1, h2.1]
            rfl
          exact List.length_eq_zero.mp this
        · rw [hfacts.2.1]
          exact h2.2

theorem runOps_preserves_strong (ops : List LibraryOp) (lib lib2 : ProjectLibrary)
    (hinv : lib.strongInvariant) (h : runOps lib ops = some lib2) :
    lib2.strongInvariant := by
  induction ops generalizing lib with
  | nil =>
    have : lib = lib2 := by
      unfold runOps at h
      exact Option.some.inj h
    rw [← this]
    exact hinv
  | cons op ops ih =>
    unfold runOps at h
    cases hop : applyOp lib op with
    | none => rw [hop] at h; exact Option.noConfusion h
    | some libm =>
      rw [hop] at h
      exact ih libm (applyOp_preserves_strong lib libm op hinv hop) h

/-- C2: along every command sequence issued from the default (empty) library
whose operations all complete (cycling the selection on the empty library
panics and yields no resulting state, see C1), the resulting state satisfies
the selection invariant: whenever projects is non-empty the selected index is
a valid position. -/
theorem C2_selection_invariant (ops : List LibraryOp) (lib : ProjectLibrary)
    (h : runOps ProjectLibrary.default ops = some lib) :
    lib.selectionInvariant := by
  have hs := runOps_preserves_strong ops ProjectLibrary.default lib
    (Or.inr ⟨rfl, rfl⟩) h
  intro hne
  cases hs with
  | inl h1 => exact h1
  | inr h2 => exact absurd h2.1 hne

theorem C2_selection_invariant_witness :
    ProjectLibrary.selectionInvariant
      { projects := [{ name := "Website", description := "Personal site",
                       status := ProjectStatus.InProgress },
                     { name := "CLI Tool", description := "",
                       status := ProjectStatus.Idea }],
        selected_project_index := 1, library_file_path := "" } :=
  C2_selection_invariant
    [LibraryOp.addProject (Project.new "Website" "Personal site"),
     LibraryOp.cycleStatus CycleDirection.Up,
     LibraryOp.addProject (Project.new "CLI Tool" ""),
     LibraryOp.cycleSelected CycleDirection.Down]
    _ rfl

/-! ### C10: frame conditions of the cycling operations -/

/-- C10: on a non-empty library with a valid selection, cycle_selected_project
succeeds and changes only the selected index (the projects sequence and the
bound file path are unchanged), and cycle_selected_project_status changes only
the status field of the project at the selected index: its name and
description, every other project, the sequence length, the selected index and
the bound file path are all unchanged. -/
theorem C10_frame_conditions (lib : ProjectLibrary) (d : CycleDirection)
    (_hne : lib.projects ≠ [])
    (hidx : lib.selected_project_index < lib.projects.length) :
    (∀ lib2, lib.cycle_selected_project d = some lib2 →
      lib2.projects = lib.projects ∧
      lib2.library_file_path = lib.library_file_path) ∧
    (lib.cycle_selected_project d).isSome = true ∧
    ((lib.cycle_selected_project_status d).selected_project_index
        = lib.selected_project_index ∧
      (lib.cycle_selected_project_status d).library_file_path
        = lib.library_file_path ∧
      (lib.cycle_selected_project_status d).projects.length
        = lib.projects.length ∧
      (∀ j, j ≠ lib.selected_project_index →
        (lib.cycle_selected_project_status d).projects.get? j
          = lib.projects.get? j) ∧
      (∀ p, lib.projects.get? lib.selected_project_index = some p →
        (lib.cycle_selected_project_status d).projects.get?
            lib.selected_project_index
          = some { name := p.name, description := p.description,
                   status := p.status.cycle d })) := by
  obtain ⟨p0, hp0⟩ := list_get?_lt lib.projects lib.selected_project_index hidx
  have hstatus : lib.cycle_selected_project_status d =
      { lib with projects := (lib.projects.set lib.selected_project_index
          (p0.cycle_status d)) } := by
    unfold ProjectLibrary.cycle_selected_project_status
    rw [hp0]
  refine ⟨?_, ?_, ?_, ?_, ?_, ?_, ?_⟩
  · intro lib2 hsome
    cases d with
    | Down =>
      rw [cycle_down_eq lib hidx] at hsome
      have heq := Option.some.inj hsome
      rw [← heq]
      exact ⟨rfl, rfl⟩
    | Up =>
      rw [cycle_up_eq lib hidx] at hsome
      have heq := Option.some.inj hsome
      rw [← heq]
      exact ⟨rfl, rfl⟩
  · cases d with
    | Down => rw [cycle_down_eq lib hidx]; rfl
    | Up => rw [cycle_up_eq lib hidx]; rfl
  · rw [hstatus]
  · rw [hstatus]
  · rw [hstatus]
    simp
  · intro j hj
    rw [hstatus]
    exact list_get?_set_ne lib.projects lib.selected_project_index j
      (p0.cycle_status d) hj
  · intro p hp
    have hpp : p = p0 := by
      rw [hp0] at hp
      exact Option.some.inj hp.symm
    subst hpp
    rw [hstatus]
    have := list_get?_set_self lib.projects lib.selected_project_index
      (p.cycle_status d) hidx
    rw [this]
    rfl

theorem C10_frame_conditions_witness :
    (twoProjectLib.cycle_selected_project CycleDirection.Up).isSome = true ∧
    (twoProjectLib.cycle_selected_project_status CycleDirection.Up).selected_project_index
      = twoProjectLib.selected_project_index ∧
    (twoProjectLib.cycle_selected_project_status CycleDirection.Up).library_file_path
      = twoProjectLib.library_file_path ∧
    (twoProjectLib.cycle_selected_project_status CycleDirection.Up).projects.length
      = twoProjectLib.projects.length ∧
    (twoProjectLib.cycle_selected_project_status CycleDirection.Up).projects.get? 1
      = twoProjectLib.projects.get? 1 ∧
    (twoProjectLib.cycle_selected_project_status CycleDirection.Up).projects.get? 0
      = some { name := "Website", description := "Personal site",
               status := ProjectStatus.InProgress } := by
  obtain ⟨hcycle, hsome, h1, h2, h3, h4, h5⟩ :=
    C10_frame_conditions twoProjectLib CycleDirection.Up (by decide) (by decide)
  exact ⟨hsome, h1, h2, h3, h4 1 (by decide),
    h5 (Project.new "Website" "Personal site") rfl⟩
